import Mathlib

/-
Verification of the market-research agent (src/app.py) against its
natural-language specification.

The program is a thin orchestration layer: string cleaning, regex price
extraction, sequential search-gateway calls, per-competitor aggregation,
and PDF rendering.  We embed it shallowly:

  * `SearchResult`, `CompetitorSummary`, `Report` mirror the dict shapes.
  * The external Tavily client is a parameter `Provider`: for each query it
    either returns a result list (`Except.ok`) or raises (`Except.error`
    carrying the exception message `str(e)`).
  * `tavily_search`, `clean_name`, `extract_price`, `market_research`,
    `generate_pdf` are translated line by line from the source.
  * Python truthiness on `Optional[int]` (`if p`, `if comp["avg_price"]`)
    is modelled by `py_truthy`: `None` and `0` are falsy.
  * The regex `(\d{2,6})` searched by `re.search` is modelled by
    `priceSearch`: the leftmost position with at least two consecutive
    digits wins, and the greedy match takes at most six digits there.
  * The PDF story built by reportlab is modelled as the list of flowable
    elements (`PdfElem`), which captures the content sequence of the
    document (headings, paragraphs, spacers) without the byte layer.
  * The sequence of external gateway calls performed by `market_research`
    is recorded by `market_research_calls`, listing the queries in the
    order the source issues them (competitor discovery first, then per
    competitor the features, price and reviews queries).
-/

namespace MarketResearch

/-- External search-result shape: a dict with title and content fields. -/
structure SearchResult where
  title : String
  content : String
deriving Repr, DecidableEq

/-- Per-competitor aggregate built by `market_research`. -/
structure CompetitorSummary where
  name : String
  features : List String
  price : List String
  reviews : List String
  avg_price : Option Nat
deriving Repr, DecidableEq

/-- The report structure: an ordered list of competitor summaries. -/
structure Report where
  competitors : List CompetitorSummary
deriving Repr, DecidableEq

/-- The external provider: a query either yields a result list or raises an
exception with a message (the `str(e)` the except branch stores). -/
abbrev Provider := String → Except String (List SearchResult)

/-- Python str.strip of surrounding whitespace. -/
def pyStrip (s : String) : String :=
  ⟨((s.data.dropWhile Char.isWhitespace).reverse.dropWhile Char.isWhitespace).reverse⟩

/-- Separator characters of the regex in clean_name. -/
def isSep (c : Char) : Bool :=
  c = '|' || c = '-' || c = ':'

/-- Embeds clean_name: re.split on the bar, dash or colon characters takes
the segment before the first separator, then str.strip trims whitespace. -/
def clean_name (text : String) : String :=
  pyStrip ⟨text.data.takeWhile (fun c => !isSep c)⟩

/-- Embeds tavily_search: forwards the provider result list, and converts a
raised exception into the single sentinel result titled Error. -/
def tavily_search (provider : Provider) (query : String) : List SearchResult :=
  match provider query with
  | Except.ok results => results
  | Except.error e => [{ title := "Error", content := e }]

/-- Python text.replace of commas by the empty string. -/
def stripCommas (s : String) : String :=
  ⟨s.data.filter (fun c => c != ',')⟩

/-- Numeric value of a digit list, most significant first. -/
def digitsVal (ds : List Char) : Nat :=
  ds.foldl (fun acc c => 10 * acc + (c.toNat - 48)) 0

/-- Embeds re.search of the pattern of two to six digits: scan positions
left to right; at the first position where at least two consecutive digits
start, return the greedy match of at most six digits. -/
def priceSearch : List Char → Option Nat
  | [] => none
  | c :: cs =>
    let run := (c :: cs).takeWhile Char.isDigit
    if 2 ≤ run.length then some (digitsVal (run.take 6)) else priceSearch cs

/-- Embeds extract_price: strip commas, then regex search for the first run
of two to six digits, returned as an integer, else None. -/
def extract_price (text : String) : Option Nat :=
  priceSearch (stripCommas text).data

/-- The competitor-discovery query string built by market_research. -/
def competitors_query (product_name : String) : String :=
  "Top smartwatches competing with " ++ product_name ++ " in 2025"

/-- The features query string built per competitor. -/
def features_query (comp : String) : String :=
  comp ++ " smartwatch features 2025"

/-- The price query string built per competitor. -/
def price_query (comp : String) : String :=
  comp ++ " smartwatch price in Pakistan 2025 PKR"

/-- The reviews query string built per competitor. -/
def reviews_query (comp : String) : String :=
  comp ++ " smartwatch customer reviews 2025"

/-- The stored-string shape of the source: title, colon-space, then the
content sliced to its first 120 characters. -/
def snippet (r : SearchResult) : String :=
  r.title ++ ": " ++ ⟨r.content.data.take 120⟩

/-- Python truthiness of an optional integer: None and 0 are falsy. -/
def py_truthy : Option Nat → Bool
  | none => false
  | some v => v != 0

/-- The body of the per-competitor loop of market_research: three gateway
queries, snippet lists, and the average of the truthy extracted prices
(integer floor division), left None when no truthy extraction exists. -/
def build_competitor (provider : Provider) (comp : String) : CompetitorSummary :=
  let features := tavily_search provider (features_query comp)
  let price_results := tavily_search provider (price_query comp)
  let extracted0 := price_results.map (fun p => extract_price p.content)
  let extracted := (extracted0.filter py_truthy).filterMap id
  { name := comp
    features := features.map snippet
    price := price_results.map snippet
    avg_price := if extracted.isEmpty then none
                 else some (extracted.sum / extracted.length)
    reviews := (tavily_search provider (reviews_query comp)).map snippet }

/-- Embeds market_research: one discovery query, clean the titles of the
first three results, then build each competitor summary in order. -/
def market_research (provider : Provider) (product_name : String) : Report :=
  let competitors_data := tavily_search provider (competitors_query product_name)
  let competitors := (competitors_data.take 3).map (fun item => clean_name item.title)
  { competitors := competitors.map (build_competitor provider) }

/-- The queries market_research sends to the gateway, in source order: the
discovery query first, then for each competitor its features, price and
reviews queries. -/
def market_research_calls (provider : Provider) (product_name : String) : List String :=
  let competitors_data := tavily_search provider (competitors_query product_name)
  let competitors := (competitors_data.take 3).map (fun item => clean_name item.title)
  competitors_query product_name ::
    competitors.flatMap (fun comp => [features_query comp, price_query comp, reviews_query comp])

/-- A flowable element of the generated document: a styled paragraph or a
spacer.  This models the reportlab story content, not the byte layer. -/
inductive PdfElem where
  | para (style : String) (text : String)
  | spacer (width height : Nat)
deriving Repr, DecidableEq

/-- A bullet paragraph of the document body. -/
def bullet (s : String) : PdfElem :=
  PdfElem.para "Normal" ("• " ++ s)

/-- Groups a digit list with thousands-separator commas from the right,
as the Python comma format specifier renders an integer. -/
def commaGroup (ds : List Char) : List Char :=
  if _h : ds.length ≤ 3 then ds
  else commaGroup (ds.take (ds.length - 3)) ++ ',' :: ds.drop (ds.length - 3)
termination_by ds.length
decreasing_by simp [List.length_take]; omega

/-- Thousands-separated decimal rendering of a natural number. -/
def commaFmt (n : Nat) : String :=
  ⟨commaGroup (Nat.toDigits 10 n)⟩

/-- The price-callout paragraph of the document. -/
def price_line (v : Nat) : PdfElem :=
  PdfElem.para "Normal" ("💰 Estimated Avg Price: PKR " ++ commaFmt v)

/-- The story elements generate_pdf appends for one competitor: subheading,
price line only when avg_price is truthy, then the three bulleted
subsections in original order, then a spacer. -/
def competitor_block (comp : CompetitorSummary) : List PdfElem :=
  [PdfElem.para "Heading2" ("🔎 Competitor: " ++ comp.name)] ++
  (match comp.avg_price with
   | some v => if v = 0 then [] else [price_line v]
   | none => []) ++
  ([PdfElem.para "Heading3" "Key Features:"] ++ comp.features.map bullet) ++
  ([PdfElem.para "Heading3" "Prices:"] ++ comp.price.map bullet) ++
  ([PdfElem.para "Heading3" "Customer Reviews:"] ++ comp.reviews.map bullet) ++
  [PdfElem.spacer 1 12]

/-- Embeds generate_pdf at the story level: title heading and spacer, then
each competitor block in report order. -/
def generate_pdf (report : Report) (product_name : String) : List PdfElem :=
  [PdfElem.para "Heading1" ("📊 Market Analysis Report — " ++ product_name),
   PdfElem.spacer 1 12] ++
  report.competitors.flatMap competitor_block

/-- The successfully extracted, nonzero price values of a competitor's
price-query results, in result order.  This is the value list the source
actually averages: Python truthiness drops both failed extractions (None)
and extracted zeros. -/
def nonzero_extractions (provider : Provider) (comp : String) : List Nat :=
  (((tavily_search provider (price_query comp)).map
    (fun r => extract_price r.content)).filterMap id).filter (fun v => v != 0)

/-- A concrete stub provider used to instantiate witness theorems: one
discovery result whose title cleans to Acme, two price results with
extractable prices 100 and 200, and a fixed result for other queries. -/
def fixtureProvider : Provider := fun q =>
  if q = competitors_query "X" then
    Except.ok [{ title := "Acme | deals", content := "c" }]
  else if q = price_query "Acme" then
    Except.ok [{ title := "p1", content := "PKR 100" },
               { title := "p2", content := "200 rupees" }]
  else Except.ok [{ title := "T", content := "C" }]

/-- A concrete stub provider whose single price result has content 00, so
the one successful price extraction yields the value 0. -/
def zeroPriceProvider : Provider := fun q =>
  if q = competitors_query "X" then
    Except.ok [{ title := "Acme", content := "c" }]
  else if q = price_query "Acme" then
    Except.ok [{ title := "t", content := "00" }]
  else Except.ok []

/-! Helper lemmas shared by the claim theorems. -/

/-- The name field of a built competitor is the cleaned title it came from. -/
lemma build_competitor_name (provider : Provider) (comp : String) :
    (build_competitor provider comp).name = comp := rfl

/-- The names in the report are the cleaned titles of the first three
discovery results, in order. -/
lemma competitors_names_eq (provider : Provider) (p : String) :
    (market_research provider p).competitors.map CompetitorSummary.name =
      ((tavily_search provider (competitors_query p)).take 3).map
        (fun item => clean_name item.title) := by
  simp only [market_research, List.map_map]
  rfl

/-- Each element of the report competitors list is a built competitor. -/
lemma mem_competitors_iff (provider : Provider) (p : String) (c : CompetitorSummary) :
    c ∈ (market_research provider p).competitors ↔
      ∃ comp ∈ ((tavily_search provider (competitors_query p)).take 3).map
          (fun item => clean_name item.title),
        c = build_competitor provider comp := by
  simp only [market_research, List.mem_map]
  constructor
  · rintro ⟨comp, hmem, hc⟩
    exact ⟨comp, hmem, hc.symm⟩
  · rintro ⟨comp, hmem, hc⟩
    exact ⟨comp, hmem, hc.symm⟩

/-- Length of a flatMap of three-element lists. -/
lemma length_flatMap_three (f g h : String → String) (l : List String) :
    (l.flatMap (fun comp => [f comp, g comp, h comp])).length = 3 * l.length := by
  induction l with
  | nil => simp
  | cons a t ih =>
      simp only [List.flatMap_cons, List.length_append, List.length_cons, ih]
      simp
      omega

/-- The sentinel title cleans to itself. -/
lemma clean_name_Error : clean_name "Error" = "Error" := by decide

/-! Claim theorems. -/

/-- C3: the Report produced by research contains at most 3 competitors, and
their names are exactly clean_name applied to the titles of the first three
results of the competitor query, in order.  The stated list equality forces
position-by-position correspondence, so names that collide after cleaning
are kept as duplicates rather than deduplicated. -/
theorem C3_top3_competitor_names (provider : Provider) (p : String) :
    (market_research provider p).competitors.length ≤ 3 ∧
    (market_research provider p).competitors.map CompetitorSummary.name =
      ((tavily_search provider (competitors_query p)).take 3).map
        (fun item => clean_name item.title) := by
  refine ⟨?_, competitors_names_eq provider p⟩
  simp only [market_research, List.length_map, List.length_take]
  omega

/-- C7: the gateway-call trace of a run is the discovery query followed by,
for each competitor in report order, its features, price and reviews
queries; hence exactly 1 + 3 × (competitor count) calls, at most 10. -/
theorem C7_call_count_and_order (provider : Provider) (p : String) :
    market_research_calls provider p =
      competitors_query p ::
        ((market_research provider p).competitors.map CompetitorSummary.name).flatMap
          (fun comp => [features_query comp, price_query comp, reviews_query comp]) ∧
    (market_research_calls provider p).length =
      1 + 3 * (market_research provider p).competitors.length ∧
    (market_research_calls provider p).length ≤ 10 := by
  have htrace : market_research_calls provider p =
      competitors_query p ::
        ((market_research provider p).competitors.map CompetitorSummary.name).flatMap
          (fun comp => [features_query comp, price_query comp, reviews_query comp]) := by
    rw [competitors_names_eq]
    rfl
  have hcount : (market_research provider p).competitors.length ≤ 3 := by
    simp only [market_research, List.length_map, List.length_take]
    omega
  have hlen : (market_research_calls provider p).length =
      1 + 3 * (market_research provider p).competitors.length := by
    rw [htrace]
    simp only [List.length_cons, length_flatMap_three, List.length_map]
    omega
  exact ⟨htrace, hlen, by omega⟩

/-- C9: document generation is deterministic: rendering the same Report and
product name twice yields the same sequence of story elements.  In this
pure embedding of the story construction the equality is definitional; the
source builds the story from the Report alone, with no other inputs. -/
theorem C9_render_deterministic (report : Report) (product_name : String) :
    generate_pdf report product_name = generate_pdf report product_name := rfl

/-- C2: whenever the provider raises, tavily_search returns exactly the
single sentinel result titled Error whose content is the failure message;
and research run against an always-raising provider still returns a full
Report (one competitor built from the sentinel), raising nothing. -/
theorem C2_error_sentinel :
    (∀ (provider : Provider) (q e : String), provider q = Except.error e →
        tavily_search provider q = [{ title := "Error", content := e }]) ∧
    (∀ (e product_name : String),
        (market_research (fun _ => Except.error e) product_name).competitors =
          [build_competitor (fun _ => Except.error e) "Error"]) := by
  constructor
  · intro provider q e h
    simp [tavily_search, h]
  · intro e product_name
    simp only [market_research, tavily_search, List.take, List.map, clean_name_Error]

/-- Witness for C2 at a concrete provider failure. -/
theorem C2_error_sentinel_witness :
    tavily_search (fun _ => Except.error "boom") "anything" =
      [{ title := "Error", content := "boom" }] :=
  C2_error_sentinel.1 (fun _ => Except.error "boom") "anything" "boom" rfl

/-- C10: when the competitor-discovery query raises, the report has exactly
one competitor, named Error (the cleaned sentinel title), and the three
sub-queries are still issued for that synthetic competitor. -/
theorem C10_discovery_failure (provider : Provider) (p e : String)
    (h : provider (competitors_query p) = Except.error e) :
    (market_research provider p).competitors.map CompetitorSummary.name = ["Error"] ∧
    market_research_calls provider p =
      [competitors_query p, features_query "Error", price_query "Error",
       reviews_query "Error"] := by
  have hts : tavily_search provider (competitors_query p) =
      [{ title := "Error", content := e }] := by
    simp [tavily_search, h]
  constructor
  · rw [competitors_names_eq, hts]
    simp [clean_name_Error]
  · simp only [market_research_calls, hts, List.take, List.map, clean_name_Error]
    rfl

/-- Witness for C10 at a concrete always-raising provider. -/
theorem C10_discovery_failure_witness :
    (market_research (fun _ => Except.error "boom") "X").competitors.map
        CompetitorSummary.name = ["Error"] ∧
    market_research_calls (fun _ => Except.error "boom") "X" =
      [competitors_query "X", features_query "Error", price_query "Error",
       reviews_query "Error"] :=
  C10_discovery_failure (fun _ => Except.error "boom") "X" "boom" rfl

/-- takeWhile of a list whose head segment satisfies the predicate and is
followed by a failing character is exactly that segment. -/
lemma takeWhile_append_stop (p : Char → Bool) (pre : List Char) (c : Char)
    (post : List Char) (hpre : ∀ x ∈ pre, p x = true) (hc : p c = false) :
    (pre ++ c :: post).takeWhile p = pre := by
  induction pre with
  | nil => simp [List.takeWhile_cons, hc]
  | cons a t ih =>
      have ha : p a = true := hpre a (List.mem_cons_self a t)
      simp only [List.cons_append, List.takeWhile_cons, ha, if_true]
      rw [ih (fun x hx => hpre x (List.mem_cons_of_mem a hx))]

/-- takeWhile of a list all of whose elements satisfy the predicate is the
whole list. -/
lemma takeWhile_all (p : Char → Bool) (l : List Char) (h : ∀ x ∈ l, p x = true) :
    l.takeWhile p = l := by
  induction l with
  | nil => rfl
  | cons a t ih =>
      have ha : p a = true := h a (List.mem_cons_self a t)
      simp only [List.takeWhile_cons, ha, if_true]
      rw [ih (fun x hx => h x (List.mem_cons_of_mem a hx))]

/-- Unfolding equation of priceSearch on a nonempty list. -/
lemma priceSearch_cons (c : Char) (cs : List Char) :
    priceSearch (c :: cs) =
      if 2 ≤ ((c :: cs).takeWhile Char.isDigit).length
      then some (digitsVal (((c :: cs).takeWhile Char.isDigit).take 6))
      else priceSearch cs := rfl

/-- priceSearch misses exactly when no position starts two consecutive
digits. -/
lemma priceSearch_none_iff (cs : List Char) :
    priceSearch cs = none ↔
      ∀ i, ((cs.drop i).takeWhile Char.isDigit).length < 2 := by
  induction cs with
  | nil => simp [priceSearch]
  | cons c cs ih =>
      rw [priceSearch_cons]
      by_cases h2 : 2 ≤ ((c :: cs).takeWhile Char.isDigit).length
      · rw [if_pos h2]
        constructor
        · intro h; exact absurd h (by simp)
        · intro hall
          have h0 := hall 0
          simp only [List.drop_zero] at h0
          omega
      · rw [if_neg h2, ih]
        constructor
        · intro hall i
          cases i with
          | zero => simp only [List.drop_zero]; omega
          | succ i => exact hall i
        · intro hall i
          exact hall (i + 1)

/-- priceSearch returns the greedy at-most-six-digit value at the leftmost
position where at least two consecutive digits start. -/
lemma priceSearch_first (cs : List Char) (i : Nat)
    (hm : 2 ≤ ((cs.drop i).takeWhile Char.isDigit).length)
    (hmin : ∀ j, j < i → ((cs.drop j).takeWhile Char.isDigit).length < 2) :
    priceSearch cs =
      some (digitsVal (((cs.drop i).takeWhile Char.isDigit).take 6)) := by
  induction cs generalizing i with
  | nil => simp at hm
  | cons c cs ih =>
      cases i with
      | zero =>
          simp only [List.drop_zero] at hm ⊢
          rw [priceSearch_cons, if_pos hm]
      | succ i =>
          have h0 := hmin 0 (Nat.succ_pos i)
          simp only [List.drop_zero] at h0
          rw [priceSearch_cons, if_neg (by omega)]
          exact ih i hm (fun j hj => hmin (j + 1) (Nat.succ_lt_succ hj))

/-- C6: clean_name returns the segment before the first separator (bar,
dash or colon) with surrounding whitespace trimmed; when no separator
occurs the whole trimmed string is returned; the empty string maps to the
empty string; and the spec example holds.  The embedding is a pure
function, so freedom from side effects and error cases is structural. -/
theorem C6_clean_name_spec :
    clean_name "Acme Watch X | Best Deals 2025" = "Acme Watch X" ∧
    clean_name "" = "" ∧
    (∀ (pre : List Char) (c : Char) (post : List Char),
        isSep c = true → (∀ x ∈ pre, isSep x = false) →
        clean_name ⟨pre ++ c :: post⟩ = pyStrip ⟨pre⟩) ∧
    (∀ s : String, (∀ x ∈ s.data, isSep x = false) → clean_name s = pyStrip s) := by
  refine ⟨by decide, by decide, ?_, ?_⟩
  · intro pre c post hc hpre
    have ht : (pre ++ c :: post).takeWhile (fun x => !isSep x) = pre :=
      takeWhile_append_stop _ pre c post
        (fun x hx => by rw [hpre x hx]; rfl) (by rw [hc]; rfl)
    show pyStrip ⟨(pre ++ c :: post).takeWhile (fun x => !isSep x)⟩ = pyStrip ⟨pre⟩
    rw [ht]
  · intro s hall
    have ht : s.data.takeWhile (fun x => !isSep x) = s.data :=
      takeWhile_all _ _ (fun x hx => by rw [hall x hx]; rfl)
    show pyStrip ⟨s.data.takeWhile (fun x => !isSep x)⟩ = pyStrip s
    rw [ht]

/-- Witness for C6: a concrete split at a bar with whitespace trimming. -/
theorem C6_clean_name_spec_witness :
    clean_name ⟨" Acme ".data ++ '|' :: " z".data⟩ = pyStrip ⟨" Acme ".data⟩ :=
  C6_clean_name_spec.2.2.1 " Acme ".data '|' " z".data (by decide) (by decide)

/-- C4: extract_price strips commas and returns the first regex match of
two to six consecutive digits as an integer, or none when no two
consecutive digits occur anywhere; the spec examples hold, and on several
digit runs the first (leftmost) match wins, as the third conjunct shows on
a concrete input and the last conjunct shows in general: at the leftmost
position starting at least two digits, the greedy match of at most six
digits is returned. -/
theorem C4_extract_price_spec :
    extract_price "Rs. 12,500 only" = some 12500 ∧
    extract_price "no price listed" = none ∧
    extract_price "a 12 b 34567" = some 12 ∧
    (∀ s : String, extract_price s = none ↔
        ∀ i, (((stripCommas s).data.drop i).takeWhile Char.isDigit).length < 2) ∧
    (∀ (s : String) (i : Nat),
        2 ≤ (((stripCommas s).data.drop i).takeWhile Char.isDigit).length →
        (∀ j, j < i →
          (((stripCommas s).data.drop j).takeWhile Char.isDigit).length < 2) →
        extract_price s =
          some (digitsVal
            ((((stripCommas s).data.drop i).takeWhile Char.isDigit).take 6))) := by
  refine ⟨by decide, by decide, by decide, ?_, ?_⟩
  · intro s
    exact priceSearch_none_iff (stripCommas s).data
  · intro s i hm hmin
    exact priceSearch_first (stripCommas s).data i hm hmin

/-- Witness for C4: the first two-digit run of a concrete input. -/
theorem C4_extract_price_spec_witness : extract_price "ab123" = some 123 :=
  C4_extract_price_spec.2.2.2.2 "ab123" 2 (by decide) (by decide)

/-- Truthiness filtering then unwrapping equals unwrapping then dropping
zeros. -/
lemma filter_truthy_filterMap (l : List (Option Nat)) :
    (l.filter py_truthy).filterMap id = (l.filterMap id).filter (fun v => v != 0) := by
  induction l with
  | nil => rfl
  | cons o t ih =>
      cases o with
      | none => simpa [py_truthy] using ih
      | some v =>
          by_cases hv : v = 0
          · subst hv
            simpa [py_truthy] using ih
          · simp [py_truthy, hv, ih]

/-- The avg_price field of a built competitor, phrased with the nonzero
extraction list. -/
lemma build_avg_price (provider : Provider) (comp : String) :
    (build_competitor provider comp).avg_price =
      if (nonzero_extractions provider comp).isEmpty then none
      else some ((nonzero_extractions provider comp).sum /
        (nonzero_extractions provider comp).length) := by
  have h := filter_truthy_filterMap
    ((tavily_search provider (price_query comp)).map (fun r => extract_price r.content))
  simp only [build_competitor]
  rw [h]
  rfl

/-- A list of nonzero naturals is bounded below by its length. -/
lemma length_le_sum_of_ne_zero (l : List Nat) (h : ∀ x ∈ l, x ≠ 0) :
    l.length ≤ l.sum := by
  induction l with
  | nil => simp
  | cons a t ih =>
      have ha := h a (List.mem_cons_self a t)
      have hih := ih (fun x hx => h x (List.mem_cons_of_mem a hx))
      simp only [List.length_cons, List.sum_cons]
      omega

/-- Any present avg_price in a report built by market_research is nonzero. -/
lemma avg_price_pos (provider : Provider) (p : String) (c : CompetitorSummary)
    (hc : c ∈ (market_research provider p).competitors) (v : Nat)
    (hv : c.avg_price = some v) : v ≠ 0 := by
  obtain ⟨comp, _hm, hceq⟩ := (mem_competitors_iff provider p c).1 hc
  subst hceq
  rw [build_avg_price] at hv
  by_cases hE : (nonzero_extractions provider comp).isEmpty
  · rw [if_pos hE] at hv
    cases hv
  · rw [if_neg hE] at hv
    injection hv with hv
    have hlen : 0 < (nonzero_extractions provider comp).length := by
      rcases hne : nonzero_extractions provider comp with _ | ⟨a, t⟩
      · rw [hne] at hE
        exact absurd rfl hE
      · simp
    have hall : ∀ x ∈ nonzero_extractions provider comp, x ≠ 0 := by
      intro x hx
      have hxf := (List.mem_filter.1 hx).2
      simpa using hxf
    have hsum := length_le_sum_of_ne_zero _ hall
    have hone : 1 ≤ (nonzero_extractions provider comp).sum /
        (nonzero_extractions provider comp).length :=
      (Nat.one_le_div_iff hlen).2 hsum
    omega

/-- C1 as stated is violated by the code: a successful extraction of the
value 0 (content 00) is dropped by the Python truthiness filter, so
avg_price stays absent although one extract_price call succeeded. -/
theorem C1_counterexample :
    (market_research zeroPriceProvider "X").competitors.map CompetitorSummary.name
      = ["Acme"] ∧
    (tavily_search zeroPriceProvider (price_query "Acme")).map
      (fun r => extract_price r.content) = [some 0] ∧
    (market_research zeroPriceProvider "X").competitors.map CompetitorSummary.avg_price
      = [none] := by
  decide

/-- C1 amended: for every competitor in the report, avg_price is present
iff at least one extract_price call on a price-query result's content
returned a nonzero value, and when present it equals the integer-division
mean of exactly the nonzero successfully extracted values, in order. -/
theorem C1_avg_price_amended (provider : Provider) (p : String) (c : CompetitorSummary)
    (hc : c ∈ (market_research provider p).competitors) :
    (c.avg_price = none ↔ nonzero_extractions provider c.name = []) ∧
    (∀ v, c.avg_price = some v →
        v = (nonzero_extractions provider c.name).sum /
            (nonzero_extractions provider c.name).length) := by
  obtain ⟨comp, _hm, hceq⟩ := (mem_competitors_iff provider p c).1 hc
  subst hceq
  rw [build_competitor_name, build_avg_price]
  by_cases hE : (nonzero_extractions provider comp).isEmpty
  · rw [if_pos hE]
    have hnil : nonzero_extractions provider comp = [] := by
      simpa [List.isEmpty_iff] using hE
    constructor
    · simp [hnil]
    · intro v hv
      cases hv
  · rw [if_neg hE]
    constructor
    · constructor
      · intro h
        cases h
      · intro h
        rw [h] at hE
        exact absurd rfl hE
    · intro v hv
      injection hv with hv
      exact hv.symm

/-- Witness for C1 at the fixture provider: prices 100 and 200 average to
150. -/
theorem C1_avg_price_amended_witness :
    150 = (nonzero_extractions fixtureProvider
        (build_competitor fixtureProvider "Acme").name).sum /
      (nonzero_extractions fixtureProvider
        (build_competitor fixtureProvider "Acme").name).length :=
  (C1_avg_price_amended fixtureProvider "X" (build_competitor fixtureProvider "Acme")
    (by decide)).2 150 (by decide)

/-- C5: every string stored in a competitor's features, price or reviews
list is the corresponding result's title, then a colon and space, then a
prefix of that result's content of at most 120 characters. -/
theorem C5_snippet_shape (provider : Provider) (p : String) (c : CompetitorSummary)
    (hc : c ∈ (market_research provider p).competitors) :
    (∀ s ∈ c.features, ∃ r, r ∈ tavily_search provider (features_query c.name) ∧
        s = r.title ++ ": " ++ ⟨r.content.data.take 120⟩ ∧
        (String.mk (r.content.data.take 120)).length ≤ 120) ∧
    (∀ s ∈ c.price, ∃ r, r ∈ tavily_search provider (price_query c.name) ∧
        s = r.title ++ ": " ++ ⟨r.content.data.take 120⟩ ∧
        (String.mk (r.content.data.take 120)).length ≤ 120) ∧
    (∀ s ∈ c.reviews, ∃ r, r ∈ tavily_search provider (reviews_query c.name) ∧
        s = r.title ++ ": " ++ ⟨r.content.data.take 120⟩ ∧
        (String.mk (r.content.data.take 120)).length ≤ 120) := by
  obtain ⟨comp, _hm, hceq⟩ := (mem_competitors_iff provider p c).1 hc
  subst hceq
  refine ⟨?_, ?_, ?_⟩ <;> intro s hs <;>
    obtain ⟨r, hr, hsr⟩ := List.mem_map.1 hs <;>
    refine ⟨r, hr, by rw [← hsr]; rfl, ?_⟩ <;>
    · show (r.content.data.take 120).length ≤ 120
      rw [List.length_take]
      exact min_le_left _ _

/-- Witness for C5 at the fixture provider. -/
theorem C5_snippet_shape_witness :
    ∃ r, r ∈ tavily_search fixtureProvider
        (features_query (build_competitor fixtureProvider "Acme").name) ∧
      "T: C" = r.title ++ ": " ++ ⟨r.content.data.take 120⟩ ∧
      (String.mk (r.content.data.take 120)).length ≤ 120 :=
  (C5_snippet_shape fixtureProvider "X" (build_competitor fixtureProvider "Acme")
    (by decide)).1 "T: C" (by decide)

/-- The price-callout text never coincides with a bullet text. -/
lemma price_line_ne_bullet (v : Nat) (s : String) : price_line v ≠ bullet s := by
  intro h
  rw [price_line, bullet] at h
  injection h with _hs ht
  have hd := congrArg String.data ht
  rw [String.data_append, String.data_append] at hd
  have h1 : ("💰 Estimated Avg Price: PKR ").data =
      '💰' :: " Estimated Avg Price: PKR ".data := rfl
  have h2 : ("• ").data = '•' :: " ".data := rfl
  rw [h1, h2] at hd
  simp only [List.cons_append] at hd
  injection hd with hc _
  exact absurd hc (by decide)

/-- The price-callout paragraph differs from any paragraph of another
style. -/
lemma price_line_ne_para_of_style (v : Nat) (st t : String) (hst : st ≠ "Normal") :
    price_line v ≠ PdfElem.para st t := by
  intro h
  rw [price_line] at h
  injection h with hs _
  exact hst hs.symm

/-- The price-callout paragraph is never among the bullets of a list. -/
lemma price_line_not_mem_map_bullet (v : Nat) (l : List String) :
    price_line v ∉ l.map bullet := by
  intro h
  obtain ⟨a, _ha, hb⟩ := List.mem_map.1 h
  exact price_line_ne_bullet v a hb.symm

/-- The price-callout paragraph is not a spacer. -/
lemma price_line_ne_spacer (v w hgt : Nat) : price_line v ≠ PdfElem.spacer w hgt := by
  intro h
  rw [price_line] at h
  injection h

/-- A price line in a competitor block forces a truthy avg_price. -/
lemma avg_of_price_line_mem (comp : CompetitorSummary) (v : Nat)
    (hv : price_line v ∈ competitor_block comp) :
    ∃ w, comp.avg_price = some w ∧ w ≠ 0 := by
  rw [competitor_block] at hv
  rcases List.mem_append.1 hv with hv | h
  swap
  · exact absurd (List.mem_singleton.1 h) (price_line_ne_spacer v 1 12)
  rcases List.mem_append.1 hv with hv | h
  swap
  · rcases List.mem_append.1 h with h | h
    · exact absurd (List.mem_singleton.1 h)
        (price_line_ne_para_of_style v "Heading3" _ (by decide))
    · exact absurd h (price_line_not_mem_map_bullet v _)
  rcases List.mem_append.1 hv with hv | h
  swap
  · rcases List.mem_append.1 h with h | h
    · exact absurd (List.mem_singleton.1 h)
        (price_line_ne_para_of_style v "Heading3" _ (by decide))
    · exact absurd h (price_line_not_mem_map_bullet v _)
  rcases List.mem_append.1 hv with hv | h
  swap
  · rcases List.mem_append.1 h with h | h
    · exact absurd (List.mem_singleton.1 h)
        (price_line_ne_para_of_style v "Heading3" _ (by decide))
    · exact absurd h (price_line_not_mem_map_bullet v _)
  rcases List.mem_append.1 hv with h | h
  · exact absurd (List.mem_singleton.1 h)
      (price_line_ne_para_of_style v "Heading2" _ (by decide))
  · rcases hA : comp.avg_price with _ | w
    · simp only [hA] at h
      exact absurd h (List.not_mem_nil _)
    · simp only [hA] at h
      by_cases hw : w = 0
      · rw [if_pos hw] at h
        exact absurd h (List.not_mem_nil _)
      · exact ⟨w, rfl, hw⟩

/-- A truthy avg_price puts its price line in the competitor block. -/
lemma price_line_mem_of_avg (comp : CompetitorSummary) (w : Nat)
    (hA : comp.avg_price = some w) (hw : w ≠ 0) :
    price_line w ∈ competitor_block comp := by
  simp [competitor_block, hA, hw]

/-- C8 amended: a competitor block contains a price line iff avg_price is
present with a nonzero value (Python truthiness also suppresses a zero
average, not only an absent one); for reports produced by market_research
every present avg_price is nonzero, so there the original present-iff
reading holds; and the block renders the three bulleted subsections as one
bullet per stored string in original list order. -/
theorem C8_price_line_and_bullets :
    (∀ comp : CompetitorSummary,
        (∃ v, price_line v ∈ competitor_block comp) ↔
          ∃ v, comp.avg_price = some v ∧ v ≠ 0) ∧
    (∀ comp : CompetitorSummary, ∃ pre mid1 mid2 post : List PdfElem,
        competitor_block comp =
          pre ++ comp.features.map bullet ++ mid1 ++ comp.price.map bullet ++
            mid2 ++ comp.reviews.map bullet ++ post) ∧
    (∀ (provider : Provider) (p : String) (c : CompetitorSummary),
        c ∈ (market_research provider p).competitors →
        ∀ v, c.avg_price = some v → v ≠ 0) := by
  refine ⟨?_, ?_, ?_⟩
  · intro comp
    constructor
    · rintro ⟨v, hv⟩
      exact avg_of_price_line_mem comp v hv
    · rintro ⟨v, hA, hv⟩
      exact ⟨v, price_line_mem_of_avg comp v hA hv⟩
  · intro comp
    rcases hA : comp.avg_price with _ | w
    · refine ⟨[PdfElem.para "Heading2" ("🔎 Competitor: " ++ comp.name),
               PdfElem.para "Heading3" "Key Features:"],
              [PdfElem.para "Heading3" "Prices:"],
              [PdfElem.para "Heading3" "Customer Reviews:"],
              [PdfElem.spacer 1 12], ?_⟩
      simp [competitor_block, hA]
    · by_cases hw : w = 0
      · subst hw
        refine ⟨[PdfElem.para "Heading2" ("🔎 Competitor: " ++ comp.name),
                 PdfElem.para "Heading3" "Key Features:"],
                [PdfElem.para "Heading3" "Prices:"],
                [PdfElem.para "Heading3" "Customer Reviews:"],
                [PdfElem.spacer 1 12], ?_⟩
        simp [competitor_block, hA]
      · refine ⟨[PdfElem.para "Heading2" ("🔎 Competitor: " ++ comp.name),
                 price_line w,
                 PdfElem.para "Heading3" "Key Features:"],
                [PdfElem.para "Heading3" "Prices:"],
                [PdfElem.para "Heading3" "Customer Reviews:"],
                [PdfElem.spacer 1 12], ?_⟩
        simp [competitor_block, hA, hw]
  · intro provider p c hc v hv
    exact avg_price_pos provider p c hc v hv

/-- Witness for C8: a nonzero average places its price line in the block. -/
theorem C8_price_line_and_bullets_witness :
    ∃ v, price_line v ∈ competitor_block ⟨"A", [], [], [], some 5⟩ :=
  (C8_price_line_and_bullets.1 ⟨"A", [], [], [], some 5⟩).mpr ⟨5, rfl, by decide⟩

/-- C8 as stated over arbitrary Reports is violated: a competitor whose
avg_price is present with value 0 renders no price line. -/
theorem C8_counterexample :
    (CompetitorSummary.avg_price ⟨"A", [], [], [], some 0⟩).isSome = true ∧
    ¬ ∃ v, price_line v ∈ competitor_block (⟨"A", [], [], [], some 0⟩ : CompetitorSummary) := by
  refine ⟨rfl, ?_⟩
  rintro ⟨v, hv⟩
  have hb : competitor_block ⟨"A", [], [], [], some 0⟩ =
      [PdfElem.para "Heading2" "🔎 Competitor: A",
       PdfElem.para "Heading3" "Key Features:",
       PdfElem.para "Heading3" "Prices:",
       PdfElem.para "Heading3" "Customer Reviews:",
       PdfElem.spacer 1 12] := by decide
  rw [hb] at hv
  simp only [List.mem_cons, List.not_mem_nil, or_false] at hv
  rcases hv with h | h | h | h | h
  · rw [price_line] at h
    injection h with hs _
    exact absurd hs (by decide)
  · rw [price_line] at h
    injection h with hs _
    exact absurd hs (by decide)
  · rw [price_line] at h
    injection h with hs _
    exact absurd hs (by decide)
  · rw [price_line] at h
    injection h with hs _
    exact absurd hs (by decide)
  · rw [price_line] at h
    injection h

end MarketResearch
